import Mathlib

/-!
Shallow embedding of `src/app.py` (zEmoji_Picker): the emoji-test parser,
the UnicodeData parser, the SQLite store load, the fzf-based picker and the
final output step of `__main__`, together with theorems settling the frozen
claims about them.

Python strings are modelled as Lean `String` (operated on through their
`List Char` data); Python `dict` (insertion-ordered, assignment replaces in
place) as association lists with in-place replacement; raised exceptions as
`Except PyErr`; the SQLite connection and the fzf subprocess as explicit
state/outcome values.
-/

namespace ZEmoji

/-! ## Python string primitives -/

/-- Whitespace as recognised by Python's `str.strip` / `str.split()`
(ASCII subset; the inputs at hand are ASCII-delimited). -/
def pyIsSpace (c : Char) : Bool :=
  c == ' ' || c == '\t' || c == '\n' || c == '\r' || c == '\x0b' || c == '\x0c'

/-- Drop the longest suffix whose characters satisfy `p`. -/
def dropTrailing (p : Char → Bool) : List Char → List Char
  | [] => []
  | c :: cs =>
    match dropTrailing p cs with
    | [] => if p c then [] else [c]
    | r => c :: r

/-- Character-list form of Python `str.strip()`. -/
def stripChars (l : List Char) : List Char :=
  dropTrailing pyIsSpace (l.dropWhile pyIsSpace)

/-- Python `line.strip()`. -/
def pyStrip (s : String) : String := ⟨stripChars s.data⟩

/-- Worker for whitespace-run splitting; `acc` holds the reversed current token. -/
def wsTokensAux : List Char → List Char → List (List Char)
  | [], acc => if acc.isEmpty then [] else [acc.reverse]
  | c :: cs, acc =>
    if pyIsSpace c then
      if acc.isEmpty then wsTokensAux cs [] else acc.reverse :: wsTokensAux cs []
    else wsTokensAux cs (c :: acc)

/-- Python `str.split()` with no argument: maximal non-whitespace runs. -/
def wsTokens (l : List Char) : List (List Char) := wsTokensAux l []

/-- Python `str.split(sep)` for a one-character separator: empty pieces kept. -/
def splitOnChar (sep : Char) : List Char → List (List Char)
  | [] => [[]]
  | c :: cs =>
    match splitOnChar sep cs with
    | [] => [[]]
    | t :: ts => if c == sep then [] :: t :: ts else (c :: t) :: ts

/-- Python `str.split(sep, 1)` for a one-character separator: `none` when the
separator does not occur (the Python call then returns the whole string as the
single piece), otherwise the pieces before and after its first occurrence. -/
def splitOnce (sep : Char) : List Char → Option (List Char × List Char)
  | [] => none
  | c :: cs =>
    if c == sep then some ([], cs)
    else (splitOnce sep cs).map (fun p => (c :: p.1, p.2))

/-- `startsWithChars pat l` : Python `str.startswith` on character lists. -/
def startsWithChars : List Char → List Char → Bool
  | [], _ => true
  | _ :: _, [] => false
  | p :: ps, c :: cs => p == c && startsWithChars ps cs

/-! ## Python dict (insertion ordered, in-place replacement) -/

/-- Key lookup in an insertion-ordered dict. -/
def dictFind {α : Type} (k : String) : List (String × α) → Option α
  | [] => none
  | (k', v) :: rest => if k' = k then some v else dictFind k rest

/-- `d[k] = v`: replaces in place when the key exists, appends otherwise —
exactly Python's dict assignment with preserved insertion order. -/
def dictSet {α : Type} (k : String) (v : α) : List (String × α) → List (String × α)
  | [] => [(k, v)]
  | (k', v') :: rest => if k' = k then (k, v) :: rest else (k', v') :: dictSet k v rest

/-! ## Exceptions -/

/-- The Python exceptions the embedded code can raise. -/
inductive PyErr where
  | keyError (k : Option String)
  | indexError
  | valueError
deriving DecidableEq, Repr

/-! ## Emoji-test parser (`parse_emoji_test`, app.py lines 32-93) -/

/-- One parsed emoji entry, as built in the data-line branch. -/
structure EmojiEntry where
  codepoints : List String
  status : String
  emoji : String
  name : String
deriving DecidableEq, Repr

/-- The subgroup dict of one group: subgroup name to its entry list. -/
abbrev Subgroups := List (String × List EmojiEntry)

/-- `emoji_db` : group name to its subgroup dict. -/
abbrev EmojiDb := List (String × Subgroups)

/-- Parser state: the database under construction plus the two mutable
section trackers `curr_group` and `curr_subgroup`. -/
structure EmojiState where
  db : EmojiDb
  group : Option String
  subgroup : Option String
deriving DecidableEq, Repr

/-- Initial parser state (`emoji_db = {}`, both trackers `None`). -/
def initState : EmojiState := ⟨[], none, none⟩

/-- The `emoji_obj` built for a data line (app.py lines 66-80), from the
parts left and right of the first `#`: code points whitespace-split from the
first semicolon field, status from the second, glyph and name from the right
part split at its first space. -/
def dataEntry (lRaw rRaw : List Char) : EmojiEntry :=
  let parts := splitOnChar ';' (stripChars lRaw)
  let right := stripChars rRaw
  let codepoints := (wsTokens (stripChars (parts.getD 0 []))).map
    (fun t => (⟨t⟩ : String))
  let status : String := ⟨stripChars (parts.getD 1 [])⟩
  match splitOnce ' ' right with
  | none => ⟨codepoints, status, ⟨stripChars right⟩, ""⟩
  | some (a, b) => ⟨codepoints, status, ⟨stripChars a⟩, ⟨stripChars b⟩⟩

/-- The body of the `try` block for a data line (app.py lines 57-88), `line`
already stripped.  Every exception raised inside it (`ValueError` from the
two-way unpack when `#` is absent, `KeyError` from the nested dict access) is
caught by the `except` clause, which logs and skips, so the result is always a
plain state. -/
def processDataLine (st : EmojiState) (line : List Char) : EmojiState :=
  match splitOnce '#' line with
  | none => st
  | some (lRaw, rRaw) =>
    if (splitOnChar ';' (stripChars lRaw)).length < 2 then st
    else
      match st.group, st.subgroup with
      | some g, some sg =>
        if g ≠ "" ∧ sg ≠ "" then
          match dictFind g st.db with
          | none => st
          | some subs =>
            match dictFind sg subs with
            | none => st
            | some lst =>
              { st with db := dictSet g (dictSet sg (lst ++ [dataEntry lRaw rRaw]) subs) st.db }
        else st
      | _, _ => st

/-- One iteration of the `for line in f` loop of `parse_emoji_test`.
Header lines are handled outside any `try`, so failures there propagate
(`IndexError` when a header has no colon, `KeyError` when a subgroup header
arrives while `curr_group` is `None` or names a group missing from the dict). -/
def processEmojiLine (st : EmojiState) (rawLine : String) : Except PyErr EmojiState :=
  let line := stripChars rawLine.data
  if line.isEmpty then .ok st
  else if startsWithChars "#".data line then
    if startsWithChars "# group".data line then
      match splitOnce ':' line with
      | none => .error .indexError
      | some (_, after) =>
        let g : String := ⟨stripChars after⟩
        let db := if (dictFind g st.db).isSome then st.db else dictSet g [] st.db
        .ok ⟨db, some g, st.subgroup⟩
    else if startsWithChars "# subgroup".data line then
      match splitOnce ':' line with
      | none => .error .indexError
      | some (_, after) =>
        let sg : String := ⟨stripChars after⟩
        match st.group with
        | none => .error (.keyError none)
        | some g =>
          match dictFind g st.db with
          | none => .error (.keyError (some g))
          | some subs =>
            .ok ⟨dictSet g (dictSet sg [] subs) st.db, st.group, some sg⟩
    else .ok st
  else .ok (processDataLine st line)

/-- Fold of `processEmojiLine` over the input lines. -/
def parseEmojiLines : EmojiState → List String → Except PyErr EmojiState
  | st, [] => .ok st
  | st, l :: ls =>
    match processEmojiLine st l with
    | .ok st' => parseEmojiLines st' ls
    | .error e => .error e

/-- `parse_emoji_test` over an already-materialised line sequence. -/
def parse_emoji_test (lines : List String) : Except PyErr EmojiDb :=
  (parseEmojiLines initState lines).map (·.db)

/-! ## UnicodeData parser (`parse_unicode_data`, app.py lines 96-146) -/

/-- One registry record: the fourteen attribute fields stored for a code point
(the code point itself is the dict key). -/
structure UnicodeEntry where
  name : String
  general_category : String
  canonical_combining_class : String
  bidirectional_category : String
  decomposition : String
  decimal_digit_value : String
  digit_value : String
  numeric_value : String
  mirrored : String
  unicode_1_0_name : String
  iso_10646_comment : String
  uppercase_mapping : String
  lowercase_mapping : String
  titlecase_mapping : String
deriving DecidableEq, Repr

/-- `unicode_db` : insertion-ordered dict from code point to record. -/
abbrev UnicodeDb := List (String × UnicodeEntry)

/-- Builds the stored record from the split fields, positionally
(`fields[1]` .. `fields[14]`, exactly as app.py lines 110-141). -/
def mkUnicodeEntry (fields : List String) : UnicodeEntry :=
  ⟨fields.getD 1 "", fields.getD 2 "", fields.getD 3 "", fields.getD 4 "",
   fields.getD 5 "", fields.getD 6 "", fields.getD 7 "", fields.getD 8 "",
   fields.getD 9 "", fields.getD 10 "", fields.getD 11 "", fields.getD 12 "",
   fields.getD 13 "", fields.getD 14 ""⟩

/-- One iteration of the `for line in f` loop of `parse_unicode_data`:
`fields = line.strip().split(";")`, skip when fewer than 15 fields, else
`unicode_db[fields[0]] = {...}`. -/
def processUnicodeLine (db : UnicodeDb) (rawLine : String) : UnicodeDb :=
  let fields := (splitOnChar ';' (stripChars rawLine.data)).map
    (fun t => (⟨t⟩ : String))
  if fields.length < 15 then db
  else dictSet (fields.getD 0 "") (mkUnicodeEntry fields) db

/-- `parse_unicode_data` over an already-materialised line sequence.
No exception can escape a loop iteration, so the function is total. -/
def parse_unicode_data (lines : List String) : UnicodeDb :=
  lines.foldl processUnicodeLine []

/-! ## Store load (`setup_database`, app.py lines 154-227) -/

/-- A row of the `emojis` table (no primary key). -/
structure EmojiRow where
  group_name : String
  subgroup_name : String
  codepoints : String
  status : String
  emoji : String
  name : String
deriving DecidableEq, Repr

/-- A row of the `unicode_data` table (`code_point` is the primary key). -/
structure UnicodeRow where
  code_point : String
  name : String
  general_category : String
  decomposition : String
  numeric_value : String
  uppercase_mapping : String
  lowercase_mapping : String
  titlecase_mapping : String
deriving DecidableEq, Repr

/-- The durable store: contents of the two tables. -/
structure DbState where
  emojis : List EmojiRow
  unicode_data : List UnicodeRow
deriving DecidableEq, Repr

/-- The `emojis` rows a run inserts, in the nested iteration order of
app.py lines 186-202 (`" ".join(codepoints)` for the third column). -/
def emojiRows (db : EmojiDb) : List EmojiRow :=
  db.flatMap (fun gp =>
    gp.2.flatMap (fun sgp =>
      sgp.2.map (fun e =>
        ⟨gp.1, sgp.1, String.intercalate " " e.codepoints, e.status, e.emoji, e.name⟩)))

/-- The `unicode_data` rows a run inserts, in dict order
(app.py lines 205-223). -/
def unicodeRows (db : UnicodeDb) : List UnicodeRow :=
  db.map (fun p =>
    ⟨p.1, p.2.name, p.2.general_category, p.2.decomposition, p.2.numeric_value,
     p.2.uppercase_mapping, p.2.lowercase_mapping, p.2.titlecase_mapping⟩)

/-- `INSERT OR REPLACE` keyed on `code_point`: replaces the conflicting row if
present, appends otherwise. -/
def upsertRow (r : UnicodeRow) : List UnicodeRow → List UnicodeRow
  | [] => [r]
  | x :: xs => if x.code_point = r.code_point then r :: xs else x :: upsertRow r xs

/-- The statements `setup_database` executes against the connection, in
program order: the two `CREATE TABLE IF NOT EXISTS`, every emoji `INSERT`,
every unicode `INSERT OR REPLACE`, then `conn.commit()`. -/
inductive DbOp where
  | createEmojis
  | createUnicode
  | insertEmoji (r : EmojiRow)
  | insertUnicode (r : UnicodeRow)
  | commit
deriving DecidableEq, Repr

/-- Effect of one successful statement on the store. -/
def applyOp (s : DbState) : DbOp → DbState
  | .createEmojis => s
  | .createUnicode => s
  | .insertEmoji r => { s with emojis := s.emojis ++ [r] }
  | .insertUnicode r => { s with unicode_data := upsertRow r s.unicode_data }
  | .commit => s

/-- The full statement sequence of one `setup_database` run. -/
def dbOps (cat : EmojiDb) (reg : UnicodeDb) : List DbOp :=
  [.createEmojis, .createUnicode] ++ (emojiRows cat).map .insertEmoji
    ++ (unicodeRows reg).map .insertUnicode ++ [.commit]

/-- Outcome of one `setup_database` call: the store contents, whether
`conn.close()` was executed, and whether a statement raised. -/
structure DbRun where
  state : DbState
  closed : Bool
  failed : Bool
deriving DecidableEq, Repr

/-- Executes the statements in order; `fails i = true` means the `i`-th
statement raises, ending the run there with the store as already modified. -/
def execOps (fails : Nat → Bool) : List DbOp → Nat → DbState → DbState × Bool
  | [], _, s => (s, true)
  | op :: ops, i, s =>
    if fails i then (s, false) else execOps fails ops (i + 1) (applyOp s op)

/-- `setup_database`: runs the batch; `conn.close()` (app.py line 226) is
executed only after the commit on the straight-line path — the function has no
`try`/`finally`, so a raising statement propagates with the connection left
open. -/
def setup_database (fails : Nat → Bool) (cat : EmojiDb) (reg : UnicodeDb)
    (s : DbState) : DbRun :=
  match execOps fails (dbOps cat reg) 0 s with
  | (s', true) => ⟨s', true, false⟩
  | (s', false) => ⟨s', false, true⟩

/-- A fully successful load (every statement succeeds). -/
def loadOnce (cat : EmojiDb) (reg : UnicodeDb) (s : DbState) : DbState :=
  (setup_database (fun _ => false) cat reg s).state

/-! ## Picker (`pick`, app.py lines 235-251) and final step (lines 305-311) -/

/-- Outcome of invoking the fzf subprocess: its captured standard output, or
an exception raised by `Popen`/`communicate` (e.g. fzf not installed). -/
inductive FzfResult where
  | ok (stdout : String)
  | invokeError (msg : String)
deriving DecidableEq, Repr

/-- Lines 246-248 of `pick`: strip the captured stdout; an empty result means
no selection, otherwise the first whitespace-delimited token is returned. -/
def resolveLine (s : String) : Option String :=
  let sel := stripChars s.data
  if sel.isEmpty then none else some ⟨(wsTokens sel).headD []⟩

/-- `pick`: on a successful invocation the resolution of stdout (and no
diagnostic); on an invocation failure the `except` clause prints the
diagnostic naming fzf and the function falls through to `return None`. -/
def pick (fzf : FzfResult) : Option String × List String :=
  match fzf with
  | .ok out => (resolveLine out, [])
  | .invokeError e => (none, ["Error invoking fzf: " ++ e])

/-- Emoji-mode display line (app.py line 292) for a queried
`(group_name, subgroup_name, emoji, name)` row. -/
def flattenEmojiRow (r : EmojiRow) : String :=
  r.emoji ++ " " ++ r.name ++ " [" ++ r.group_name ++ " / " ++ r.subgroup_name ++ "]"

/-- Character-mode display line (app.py line 300) for a queried
`(code_point, name)` row. -/
def flattenCharRow (r : UnicodeRow) : String :=
  r.code_point ++ " " ++ r.name

/-- Value of a single hexadecimal digit (ASCII). -/
def hexDigitVal (c : Char) : Option Nat :=
  if '0' ≤ c ∧ c ≤ '9' then some (c.toNat - '0'.toNat)
  else if 'a' ≤ c ∧ c ≤ 'f' then some (c.toNat - 'a'.toNat + 10)
  else if 'A' ≤ c ∧ c ≤ 'F' then some (c.toNat - 'A'.toNat + 10)
  else none

/-- Remaining digits of a hexadecimal numeral: hex digits with single
underscores allowed only between digits. -/
def hexDigitsVal : List Char → Nat → Option Nat
  | [], acc => some acc
  | '_' :: c :: rest, acc =>
    match hexDigitVal c with
    | some d => hexDigitsVal rest (16 * acc + d)
    | none => none
  | ['_'], _ => none
  | c :: rest, acc =>
    match hexDigitVal c with
    | some d => hexDigitsVal rest (16 * acc + d)
    | none => none

/-- A nonempty hexadecimal digit run (must start with a digit). -/
def hexDigitsNum : List Char → Option Nat
  | [] => none
  | c :: rest =>
    match hexDigitVal c with
    | some d => hexDigitsVal rest d
    | none => none

/-- Digits after a `0x`/`0X` prefix: CPython additionally allows one
underscore directly after the prefix. -/
def hexAfterPfx : List Char → Option Nat
  | '_' :: rest => hexDigitsNum rest
  | l => hexDigitsNum l

/-- Python `int(s, 16)` (ASCII fragment: surrounding whitespace, optional
sign, optional `0x` prefix, digits with single interior underscores; the
non-ASCII decimal digits CPython also accepts cannot occur in this data).
`none` models the raised `ValueError`. -/
def pyIntHex (s : String) : Option Int :=
  let l := stripChars s.data
  let signed : Int × List Char :=
    match l with
    | '+' :: r => (1, r)
    | '-' :: r => (-1, r)
    | r => (1, r)
  let mag : Option Nat :=
    match signed.2 with
    | '0' :: c :: r =>
      if c == 'x' || c == 'X' then hexAfterPfx r else hexDigitsNum signed.2
    | _ => hexDigitsNum signed.2
  mag.map (fun n => signed.1 * n)

/-- Python `chr(n)`: the scalar value (as a code point) when
`0 ≤ n ≤ 0x10FFFF`, `ValueError` otherwise. -/
def pyChr (n : Int) : Except PyErr Nat :=
  if 0 ≤ n ∧ n ≤ 0x10FFFF then .ok n.toNat else .error .valueError

/-- What the tail of `__main__` prints. -/
inductive MainOut where
  | noSelection
  | chr (n : Nat)
deriving DecidableEq, Repr

/-- app.py lines 308-311: `print(chr(int(picked, 16)))` when `picked` is
truthy, else `print("No selection made.")`.  Note this tail does not consult
`choice`: the hexadecimal interpretation is applied to the picked token in
both modes.  An error is an uncaught `ValueError` terminating the process. -/
def finalStep (picked : Option String) : Except PyErr MainOut :=
  match picked with
  | none => .ok .noSelection
  | some p =>
    if p = "" then .ok .noSelection
    else
      match pyIntHex p with
      | none => .error .valueError
      | some n => (pyChr n).map .chr

/-! ## Helper lemmas -/

theorem data_append (s t : String) : (s ++ t).data = s.data ++ t.data := rfl

theorem dictFind_dictSet {α : Type} (k k' : String) (v : α) (d : List (String × α)) :
    dictFind k (dictSet k' v d) = if k' = k then some v else dictFind k d := by
  induction d with
  | nil => simp [dictFind, dictSet]
  | cons p rest ih =>
    by_cases h1 : p.1 = k'
    · by_cases h2 : k' = k <;> simp [dictFind, dictSet, h1, h2]
    · by_cases h2 : p.1 = k
      · have hne : ¬ k' = k := fun he => h1 (h2.trans he.symm)
        have hne' : ¬ k = k' := fun he => hne he.symm
        simp [dictFind, dictSet, h1, h2, hne, hne']
      · simp [dictFind, dictSet, h1, h2, ih]

theorem dictFind_dictSet_self {α : Type} (k : String) (v : α) (d : List (String × α)) :
    dictFind k (dictSet k v d) = some v := by
  simp [dictFind_dictSet]

theorem dropTrailing_append (p : Char → Bool) (l₁ l₂ : List Char) :
    dropTrailing p (l₁ ++ l₂) =
      if dropTrailing p l₂ = [] then dropTrailing p l₁
      else l₁ ++ dropTrailing p l₂ := by
  induction l₁ with
  | nil => by_cases h : dropTrailing p l₂ = [] <;> simp [dropTrailing, h]
  | cons c l₁' ih =>
    have key : dropTrailing p ((c :: l₁') ++ l₂)
        = match dropTrailing p (l₁' ++ l₂) with
          | [] => if p c = true then [] else [c]
          | r => c :: r := rfl
    by_cases h : dropTrailing p l₂ = []
    · rw [if_pos h] at ih ⊢
      rw [key, ih]
      rfl
    · rw [if_neg h] at ih ⊢
      have hne : l₁' ++ dropTrailing p l₂ ≠ [] := by
        intro he
        exact h (List.append_eq_nil.mp he).2
      rw [key, ih]
      have goal2 : (match l₁' ++ dropTrailing p l₂ with
          | [] => if p c = true then [] else [c]
          | r => c :: r) = c :: (l₁' ++ dropTrailing p l₂) := by
        cases hm : l₁' ++ dropTrailing p l₂ with
        | nil => exact absurd hm hne
        | cons x xs => rfl
      rw [goal2]
      rfl

theorem dropTrailing_eq_self (p : Char → Bool) (l : List Char)
    (h : ∀ c ∈ l, p c = false) : dropTrailing p l = l := by
  induction l with
  | nil => rfl
  | cons c cs ih =>
    have hc := h c (by simp)
    have ih' := ih (fun x hx => h x (by simp [hx]))
    simp only [dropTrailing, ih']
    match hm : cs with
    | [] => simp [hc]
    | x :: xs => rfl

theorem dropTrailing_cons_shape (p : Char → Bool) (c : Char) (l : List Char) :
    dropTrailing p (c :: l) = [] ∨ ∃ r, dropTrailing p (c :: l) = c :: r := by
  simp only [dropTrailing]
  match dropTrailing p l with
  | [] =>
    by_cases h : p c
    · simp [h]
    · exact Or.inr ⟨[], by simp [h]⟩
  | x :: xs => exact Or.inr ⟨x :: xs, rfl⟩

theorem wsTokensAux_append_space (tok : List Char) (rest acc : List Char)
    (hns : ∀ c ∈ tok, pyIsSpace c = false) (hne : tok = [] → acc ≠ []) :
    wsTokensAux (tok ++ ' ' :: rest) acc
      = (acc.reverse ++ tok) :: wsTokensAux rest [] := by
  induction tok generalizing acc with
  | nil =>
    have hacc := hne rfl
    have : acc.isEmpty = false := by
      cases acc with
      | nil => exact absurd rfl hacc
      | cons a as => rfl
    simp [wsTokensAux, pyIsSpace, this]
  | cons c tok' ih =>
    have hc : pyIsSpace c = false := hns c (by simp)
    have hns' : ∀ x ∈ tok', pyIsSpace x = false := fun x hx => hns x (by simp [hx])
    have key : wsTokensAux ((c :: tok') ++ ' ' :: rest) acc
        = if pyIsSpace c = true then
            (if acc.isEmpty then wsTokensAux (tok' ++ ' ' :: rest) []
             else acc.reverse :: wsTokensAux (tok' ++ ' ' :: rest) [])
          else wsTokensAux (tok' ++ ' ' :: rest) (c :: acc) := rfl
    rw [key, if_neg (by simp [hc]), ih (c :: acc) hns' (by simp)]
    simp

theorem wsTokensAux_all_nonspace (tok acc : List Char)
    (hns : ∀ c ∈ tok, pyIsSpace c = false) (hne : tok = [] → acc ≠ []) :
    wsTokensAux tok acc = [acc.reverse ++ tok] := by
  induction tok generalizing acc with
  | nil =>
    have hacc := hne rfl
    have : acc.isEmpty = false := by
      cases acc with
      | nil => exact absurd rfl hacc
      | cons a as => rfl
    simp [wsTokensAux, this]
  | cons c tok' ih =>
    have hc : pyIsSpace c = false := hns c (by simp)
    have hns' : ∀ x ∈ tok', pyIsSpace x = false := fun x hx => hns x (by simp [hx])
    have key : wsTokensAux (c :: tok') acc
        = if pyIsSpace c = true then
            (if acc.isEmpty then wsTokensAux tok' []
             else acc.reverse :: wsTokensAux tok' [])
          else wsTokensAux tok' (c :: acc) := rfl
    rw [key, if_neg (by simp [hc]), ih (c :: acc) hns' (by simp)]
    simp

/-- `resolveLine` unfolded. -/
theorem resolveLine_eq (s : String) :
    resolveLine s = if (stripChars s.data).isEmpty then none
      else some ⟨(wsTokens (stripChars s.data)).headD []⟩ := rfl

/-- The selection-adapter resolution on a line beginning with a nonempty,
whitespace-free token followed by a space: it recovers exactly that token. -/
theorem resolveLine_token (tok rest : List Char)
    (hne : tok ≠ []) (hns : ∀ c ∈ tok, pyIsSpace c = false) :
    resolveLine ⟨tok ++ ' ' :: rest⟩ = some ⟨tok⟩ := by
  obtain ⟨c, tok', rfl⟩ : ∃ c tok', tok = c :: tok' := by
    cases tok with
    | nil => exact absurd rfl hne
    | cons c tok' => exact ⟨c, tok', rfl⟩
  have hc : pyIsSpace c = false := hns c (by simp)
  have hstrip : stripChars ((c :: tok') ++ ' ' :: rest)
      = if dropTrailing pyIsSpace (' ' :: rest) = [] then (c :: tok')
        else (c :: tok') ++ dropTrailing pyIsSpace (' ' :: rest) := by
    have h1 : List.dropWhile pyIsSpace ((c :: tok') ++ ' ' :: rest)
        = (c :: tok') ++ ' ' :: rest := by
      rw [List.cons_append, List.dropWhile_cons]
      simp [hc]
    rw [stripChars, h1, dropTrailing_append]
    by_cases h : dropTrailing pyIsSpace (' ' :: rest) = []
    · rw [if_pos h, if_pos h, dropTrailing_eq_self pyIsSpace _ hns]
    · rw [if_neg h, if_neg h]
  have hdata : (⟨(c :: tok') ++ ' ' :: rest⟩ : String).data
      = (c :: tok') ++ ' ' :: rest := rfl
  rw [resolveLine_eq, hdata, hstrip]
  by_cases h : dropTrailing pyIsSpace (' ' :: rest) = []
  · rw [if_pos h]
    have hemp : (c :: tok').isEmpty = false := rfl
    rw [hemp]
    simp only [Bool.false_eq_true, if_false]
    rw [wsTokens, wsTokensAux_all_nonspace _ [] hns (by simp)]
    simp
  · rw [if_neg h]
    rcases dropTrailing_cons_shape pyIsSpace ' ' rest with hsh | ⟨r, hsh⟩
    · exact absurd hsh h
    · rw [hsh]
      have hemp : ((c :: tok') ++ ' ' :: r).isEmpty = false := rfl
      rw [hemp]
      simp only [Bool.false_eq_true, if_false]
      rw [wsTokens, wsTokensAux_append_space _ _ [] hns (by simp)]
      simp

theorem data_ne_nil {s : String} (h : s ≠ "") : s.data ≠ [] := by
  intro hd
  exact h (by rw [show s = ⟨s.data⟩ from rfl, hd])

/-- `resolveLine` applied to any string whose data is a nonempty,
whitespace-free token, a space, then anything: the token is recovered. -/
theorem resolveLine_of_data (s tokS : String) (rest : List Char)
    (h : s.data = tokS.data ++ ' ' :: rest)
    (hne : tokS ≠ "") (hns : ∀ c ∈ tokS.data, pyIsSpace c = false) :
    resolveLine s = some tokS := by
  have h2 : resolveLine s = resolveLine ⟨tokS.data ++ ' ' :: rest⟩ := by
    rw [← h]
  rw [h2]
  rw [resolveLine_token _ _ (data_ne_nil hne) hns]

/-! ## Claim theorems -/

/-- **C1** (code bug evidence): the tail of `__main__` applies the
hexadecimal interpretation to the resolved primary token unconditionally —
`finalStep` has no mode parameter because app.py lines 305-311 never consult
`choice` — so in emoji mode the selected glyph `😀` is fed to
`int(picked, 16)` and the process dies with an uncaught `ValueError` instead
of printing the glyph itself.  The claim (hex interpretation only in
character mode, glyph printed verbatim in emoji mode) matches the spec's
intent but not the code. -/
theorem c1_emoji_mode_applies_hex :
    pick (.ok "😀 grinning face [Smileys & Emotion / face-smiling]\n")
      = (some "😀", [])
    ∧ finalStep (some "😀") = .error .valueError := by
  constructor
  · rfl
  · rfl

/-- **C4**: character-mode resolution of `"1F600"` yields the scalar value
U+1F600; a token that is not valid hexadecimal, or whose value is not a
valid `chr` argument, fails with the conversion error (`ValueError`, the
code-level `FormatError`) rather than producing any output. -/
theorem c4_charmode_resolution :
    finalStep (some "1F600") = .ok (.chr 0x1F600)
    ∧ (∀ tok : String, tok ≠ "" → pyIntHex tok = none →
        finalStep (some tok) = .error .valueError)
    ∧ (∀ (tok : String) (n : Int), tok ≠ "" → pyIntHex tok = some n →
        ¬(0 ≤ n ∧ n ≤ 0x10FFFF) → finalStep (some tok) = .error .valueError) := by
  refine ⟨rfl, ?_, ?_⟩
  · intro tok h hnone
    simp [finalStep, h, hnone]
  · intro tok n h hsome hrange
    simp only [finalStep, if_neg h, hsome, pyChr, if_neg hrange]
    rfl

/-- Witness for C4: the non-hexadecimal token `"XYZ"` and the out-of-range
token `"110000"` both fail with `ValueError`. -/
theorem c4_witness :
    (("XYZ" : String) ≠ "" ∧ pyIntHex "XYZ" = none
      ∧ finalStep (some "XYZ") = .error .valueError)
    ∧ (("110000" : String) ≠ "" ∧ pyIntHex "110000" = some 1114112
      ∧ ¬((0:Int) ≤ 1114112 ∧ (1114112:Int) ≤ 0x10FFFF)
      ∧ finalStep (some "110000") = .error .valueError) :=
  ⟨⟨by decide, by decide,
    c4_charmode_resolution.2.1 "XYZ" (by decide) (by decide)⟩,
   ⟨by decide, by decide, by decide,
    c4_charmode_resolution.2.2 "110000" 1114112 (by decide) (by decide) (by decide)⟩⟩

/-- **C6** (as stated, refuted): a matcher invocation failure does *not*
abort the run — `pick` catches it, prints the diagnostic naming fzf, and
returns `None`, the very same outcome as an empty matcher output, after which
the flow prints "No selection made.". -/
theorem c6_counterexample :
    pick (.invokeError "boom") = (none, ["Error invoking fzf: boom"])
    ∧ pick (.ok "") = (none, [])
    ∧ finalStep (pick (.invokeError "boom")).1 = .ok .noSelection := by
  exact ⟨rfl, rfl, rfl⟩

/-- **C6** (amended): a failure to invoke the fuzzy matcher is caught inside
`pick`; a diagnostic naming fzf is printed and `pick` returns the non-fatal
no-selection outcome — identical, as a value, to the outcome for empty
matcher output — and the run then prints "No selection made." rather than
aborting.  The failure is distinguishable only by the printed diagnostic. -/
theorem c6_amended : ∀ e : String,
    pick (.invokeError e) = (none, ["Error invoking fzf: " ++ e])
    ∧ (pick (.invokeError e)).1 = (pick (.ok "")).1
    ∧ finalStep (pick (.invokeError e)).1 = .ok .noSelection := by
  intro e
  exact ⟨rfl, rfl, rfl⟩

/-- **C3** (as stated, refuted): `resolve` composed with `flatten` is *not*
the identity on the primary token for every row.  A row whose glyph is the
empty string (which the parser produces when the text after `#` is empty)
flattens to a line whose first whitespace-delimited token is the name, not
the glyph. -/
theorem c3_counterexample :
    (EmojiRow.mk "g" "s" "1F600" "fully-qualified" "" "grinning face").emoji = ""
    ∧ resolveLine (flattenEmojiRow
        (EmojiRow.mk "g" "s" "1F600" "fully-qualified" "" "grinning face"))
      = some "grinning"
    ∧ some ("grinning" : String) ≠ some ("" : String) := by
  refine ⟨rfl, rfl, by decide⟩

/-- **C3** (amended): for every row whose primary token (glyph in emoji mode,
code point in character mode) is nonempty and contains no whitespace, taking
the first whitespace-delimited token of the flattened display line recovers
exactly that primary token. -/
theorem c3_amended : ∀ (er : EmojiRow) (ur : UnicodeRow),
    (er.emoji ≠ "" → (∀ c ∈ er.emoji.data, pyIsSpace c = false) →
      resolveLine (flattenEmojiRow er) = some er.emoji)
    ∧ (ur.code_point ≠ "" → (∀ c ∈ ur.code_point.data, pyIsSpace c = false) →
      resolveLine (flattenCharRow ur) = some ur.code_point) := by
  intro er ur
  have d1 : (" " : String).data = [' '] := rfl
  have d2 : (" [" : String).data = [' ', '['] := rfl
  have d3 : (" / " : String).data = [' ', '/', ' '] := rfl
  have d4 : ("]" : String).data = [']'] := rfl
  constructor
  · intro hne hns
    refine resolveLine_of_data _ _
      (er.name.data ++ ' ' :: '[' ::
        (er.group_name.data ++ ' ' :: '/' :: ' ' :: (er.subgroup_name.data ++ [']'])))
      ?_ hne hns
    simp [flattenEmojiRow, data_append, d1, d2, d3, d4]
  · intro hne hns
    refine resolveLine_of_data _ _ ur.name.data ?_ hne hns
    simp [flattenCharRow, data_append, d1]

/-- Witness for C3 (amended): a realistic emoji row and character row. -/
theorem c3_witness :
    ((("😀" : String) ≠ ""
      ∧ (∀ c ∈ ("😀" : String).data, pyIsSpace c = false))
      ∧ resolveLine (flattenEmojiRow
          (EmojiRow.mk "Smileys & Emotion" "face-smiling" "1F600" "fully-qualified"
            "😀" "grinning face")) = some "😀")
    ∧ ((("1F600" : String) ≠ ""
      ∧ (∀ c ∈ ("1F600" : String).data, pyIsSpace c = false))
      ∧ resolveLine (flattenCharRow
          (UnicodeRow.mk "1F600" "GRINNING FACE" "So" "" "" "" "" ""))
        = some "1F600") :=
  ⟨⟨⟨by decide, by decide⟩,
    (c3_amended (EmojiRow.mk "Smileys & Emotion" "face-smiling" "1F600" "fully-qualified"
      "😀" "grinning face")
      (UnicodeRow.mk "1F600" "GRINNING FACE" "So" "" "" "" "" "")).1
      (by decide) (by decide)⟩,
   ⟨⟨by decide, by decide⟩,
    (c3_amended (EmojiRow.mk "Smileys & Emotion" "face-smiling" "1F600" "fully-qualified"
      "😀" "grinning face")
      (UnicodeRow.mk "1F600" "GRINNING FACE" "So" "" "" "" "" "")).2
      (by decide) (by decide)⟩⟩

/-- **C9**: processing a subgroup header line (under any current group `g`
present in the catalog, in particular on a second occurrence of the same
header) unconditionally re-creates the entry list of that exact
`(group, subgroup)` pair as the empty list — any entries accumulated for the
pair between two occurrences of the header are discarded. -/
theorem c9_subgroup_reset :
    ∀ (st : EmojiState) (g : String) (subs : Subgroups) (rawLine n : String),
    st.group = some g → dictFind g st.db = some subs →
    pyStrip rawLine = "# subgroup:" ++ n →
    processEmojiLine st rawLine
      = .ok ⟨dictSet g (dictSet (pyStrip n) [] subs) st.db, some g, some (pyStrip n)⟩
    ∧ dictFind g (dictSet g (dictSet (pyStrip n) [] subs) st.db)
      = some (dictSet (pyStrip n) [] subs)
    ∧ dictFind (pyStrip n) (dictSet (pyStrip n) [] subs) = some [] := by
  intro st g subs rawLine n h1 h2 h3
  refine ⟨?_, dictFind_dictSet_self _ _ _, dictFind_dictSet_self _ _ _⟩
  have hd : stripChars rawLine.data
      = '#' :: ' ' :: 's' :: 'u' :: 'b' :: 'g' :: 'r' :: 'o' :: 'u' :: 'p' :: ':' :: n.data := by
    have h4 : (pyStrip rawLine).data = ("# subgroup:" ++ n).data := congrArg String.data h3
    have h5 : (pyStrip rawLine).data = stripChars rawLine.data := rfl
    have h6 : ("# subgroup:" ++ n).data
        = '#' :: ' ' :: 's' :: 'u' :: 'b' :: 'g' :: 'r' :: 'o' :: 'u' :: 'p' :: ':' :: n.data := rfl
    rw [← h5, h4, h6]
  simp only [processEmojiLine, hd]
  simp only [List.isEmpty, startsWithChars, splitOnce, Option.map]
  simp only [h1, h2]
  rfl

/-- Witness for C9: after accumulating one entry under
("Smileys & Emotion", "face-smiling"), re-processing the same subgroup
header leaves that pair's list empty. -/
theorem c9_witness :
    ((⟨[("Smileys & Emotion",
        [("face-smiling",
          [(⟨["1F600"], "fully-qualified", "😀", "grinning face"⟩ : EmojiEntry)])])],
       some "Smileys & Emotion", some "face-smiling"⟩ : EmojiState).group
      = some "Smileys & Emotion"
     ∧ dictFind "Smileys & Emotion"
        (⟨[("Smileys & Emotion",
          [("face-smiling",
            [(⟨["1F600"], "fully-qualified", "😀", "grinning face"⟩ : EmojiEntry)])])],
         some "Smileys & Emotion", some "face-smiling"⟩ : EmojiState).db
      = some [("face-smiling",
          [(⟨["1F600"], "fully-qualified", "😀", "grinning face"⟩ : EmojiEntry)])]
     ∧ pyStrip "# subgroup: face-smiling" = "# subgroup:" ++ " face-smiling")
    ∧ (processEmojiLine
        ⟨[("Smileys & Emotion",
          [("face-smiling",
            [(⟨["1F600"], "fully-qualified", "😀", "grinning face"⟩ : EmojiEntry)])])],
         some "Smileys & Emotion", some "face-smiling"⟩
        "# subgroup: face-smiling"
      = .ok ⟨dictSet "Smileys & Emotion"
          (dictSet (pyStrip " face-smiling") []
            [("face-smiling",
              [(⟨["1F600"], "fully-qualified", "😀", "grinning face"⟩ : EmojiEntry)])])
          [("Smileys & Emotion",
            [("face-smiling",
              [(⟨["1F600"], "fully-qualified", "😀", "grinning face"⟩ : EmojiEntry)])])],
          some "Smileys & Emotion", some (pyStrip " face-smiling")⟩
      ∧ dictFind "Smileys & Emotion"
          (dictSet "Smileys & Emotion"
            (dictSet (pyStrip " face-smiling") []
              [("face-smiling",
                [(⟨["1F600"], "fully-qualified", "😀", "grinning face"⟩ : EmojiEntry)])])
            [("Smileys & Emotion",
              [("face-smiling",
                [(⟨["1F600"], "fully-qualified", "😀", "grinning face"⟩ : EmojiEntry)])])])
        = some (dictSet (pyStrip " face-smiling") []
            [("face-smiling",
              [(⟨["1F600"], "fully-qualified", "😀", "grinning face"⟩ : EmojiEntry)])])
      ∧ dictFind (pyStrip " face-smiling")
          (dictSet (pyStrip " face-smiling") []
            [("face-smiling",
              [(⟨["1F600"], "fully-qualified", "😀", "grinning face"⟩ : EmojiEntry)])])
        = some []) :=
  ⟨⟨rfl, by decide, by decide⟩,
   c9_subgroup_reset _ "Smileys & Emotion" _ "# subgroup: face-smiling" " face-smiling"
     rfl (by decide) (by decide)⟩

/-- Python truthiness of `if curr_group and curr_subgroup` (app.py line 82),
strengthened with existence of the nested list the append targets. -/
def canAppend (st : EmojiState) : Bool :=
  match st.group, st.subgroup with
  | some g, some sg =>
    (decide (g ≠ "") && decide (sg ≠ ""))
      && (match dictFind g st.db with
          | none => false
          | some subs => (dictFind sg subs).isSome)
  | _, _ => false

def subgroupsEntryCount (subs : Subgroups) : Nat := (subs.map (fun p => p.2.length)).sum

def totalEntries (db : EmojiDb) : Nat := (db.map (fun p => subgroupsEntryCount p.2)).sum

theorem sum_dictSet {α : Type} (f : α → Nat) (k : String) (v old : α)
    (d : List (String × α)) (h : dictFind k d = some old) :
    ((dictSet k v d).map (fun p => f p.2)).sum + f old
      = (d.map (fun p => f p.2)).sum + f v := by
  induction d with
  | nil => simp [dictFind] at h
  | cons p rest ih =>
    obtain ⟨k', v'⟩ := p
    by_cases hk : k' = k
    · have hv : v' = old := by
        simpa [dictFind, hk] using h
      subst hv
      simp [dictSet, hk]
      omega
    · have h' : dictFind k rest = some old := by
        simpa [dictFind, hk] using h
      have hih := ih h'
      simp [dictSet, hk]
      omega

theorem totalEntries_append (g sg : String) (subs : Subgroups)
    (lst : List EmojiEntry) (e : EmojiEntry) (db : EmojiDb)
    (h1 : dictFind g db = some subs) (h2 : dictFind sg subs = some lst) :
    totalEntries (dictSet g (dictSet sg (lst ++ [e]) subs) db)
      = totalEntries db + 1 := by
  have hA := sum_dictSet subgroupsEntryCount g (dictSet sg (lst ++ [e]) subs) subs db h1
  have hB := sum_dictSet (fun l => l.length) sg (lst ++ [e]) lst subs h2
  simp only [totalEntries, subgroupsEntryCount, List.length_append, List.length_cons,
    List.length_nil] at hA hB ⊢
  omega

theorem processDataLine_wf (st : EmojiState) (line lRaw rRaw : List Char)
    (hsp : splitOnce '#' line = some (lRaw, rRaw))
    (hlen : ¬ (splitOnChar ';' (stripChars lRaw)).length < 2) :
    (canAppend st = true ∧ ∃ g sg subs lst,
        st.group = some g ∧ st.subgroup = some sg
        ∧ dictFind g st.db = some subs ∧ dictFind sg subs = some lst
        ∧ processDataLine st line
            = { st with db := dictSet g (dictSet sg (lst ++ [dataEntry lRaw rRaw]) subs) st.db })
    ∨ (canAppend st = false ∧ processDataLine st line = st) := by
  cases hg : st.group with
  | none =>
    refine Or.inr ⟨by simp [canAppend, hg], ?_⟩
    simp only [processDataLine, hsp, if_neg hlen, hg]
  | some g =>
    cases hsg : st.subgroup with
    | none =>
      refine Or.inr ⟨by simp [canAppend, hg, hsg], ?_⟩
      simp only [processDataLine, hsp, if_neg hlen, hg, hsg]
    | some sg =>
      by_cases hne : g ≠ "" ∧ sg ≠ ""
      · cases hf1 : dictFind g st.db with
        | none =>
          refine Or.inr ⟨by simp [canAppend, hg, hsg, hf1], ?_⟩
          simp only [processDataLine, hsp, if_neg hlen, hg, hsg, if_pos hne, hf1]
        | some subs =>
          cases hf2 : dictFind sg subs with
          | none =>
            refine Or.inr ⟨by simp [canAppend, hg, hsg, hf1, hf2], ?_⟩
            simp only [processDataLine, hsp, if_neg hlen, hg, hsg, if_pos hne, hf1, hf2]
          | some lst =>
            refine Or.inl ⟨by simp [canAppend, hg, hsg, hf1, hf2, hne.1, hne.2],
              g, sg, subs, lst, rfl, rfl, hf1, hf2, ?_⟩
            simp only [processDataLine, hsp, if_neg hlen, hg, hsg, if_pos hne, hf1, hf2]
      · rcases not_and_or.mp hne with h | h <;>
        · refine Or.inr ⟨by simp [canAppend, hg, hsg, not_not.mp h], ?_⟩
          simp only [processDataLine, hsp, if_neg hlen, hg, hsg, if_neg hne]

theorem processEmojiLine_data (st : EmojiState) (rawLine : String)
    (h1 : (stripChars rawLine.data).isEmpty = false)
    (h2 : startsWithChars "#".data (stripChars rawLine.data) = false) :
    processEmojiLine st rawLine = .ok (processDataLine st (stripChars rawLine.data)) := by
  simp only [processEmojiLine, h1, h2, Bool.false_eq_true, if_false]
/-- **C10** (amended): a well-formed data line is processed without error,
leaves the section trackers unchanged, and contributes exactly one catalog
entry when the current group and subgroup are set (Python-truthy) *and* the
current subgroup's list exists under the current group; in every other case —
in particular for any data line appearing before both headers — it
contributes nothing and leaves the catalog untouched. -/
theorem c10_amended : ∀ (st : EmojiState) (rawLine : String) (lRaw rRaw : List Char),
    (stripChars rawLine.data).isEmpty = false →
    startsWithChars "#".data (stripChars rawLine.data) = false →
    splitOnce '#' (stripChars rawLine.data) = some (lRaw, rRaw) →
    ¬ (splitOnChar ';' (stripChars lRaw)).length < 2 →
    ∃ st', processEmojiLine st rawLine = .ok st'
      ∧ st'.group = st.group ∧ st'.subgroup = st.subgroup
      ∧ totalEntries st'.db = totalEntries st.db + (if canAppend st then 1 else 0)
      ∧ (canAppend st = false → st' = st) := by
  intro st rawLine lRaw rRaw h1 h2 hsp hlen
  refine ⟨processDataLine st (stripChars rawLine.data),
    processEmojiLine_data st rawLine h1 h2, ?_⟩
  rcases processDataLine_wf st _ lRaw rRaw hsp hlen with
    ⟨hca, g, sg, subs, lst, hg, hsg, hf1, hf2, heq⟩ | ⟨hca, heq⟩
  · rw [heq]
    refine ⟨rfl, rfl, ?_, ?_⟩
    · simp only [hca, if_true]
      exact totalEntries_append g sg subs lst _ _ hf1 hf2
    · intro hfalse
      rw [hca] at hfalse
      cases hfalse
  · rw [heq]
    exact ⟨rfl, rfl, by simp [hca], fun _ => rfl⟩

/-- The invariant maintained by the parse loop: whenever `curr_group` is set,
its key is present in `emoji_db`. -/
def invGroup (st : EmojiState) : Prop :=
  ∀ g, st.group = some g → (dictFind g st.db).isSome = true

theorem startsWith_first {c : Char} {pat s : List Char}
    (h : startsWithChars (c :: pat) s = true) : startsWithChars [c] s = true := by
  cases s with
  | nil => simp [startsWithChars] at h
  | cons a as =>
    simp only [startsWithChars, Bool.and_eq_true] at h ⊢
    exact ⟨h.1, trivial⟩

theorem group_subgroup_incompat {s : List Char}
    (h1 : startsWithChars "# group".data s = true)
    (h2 : startsWithChars "# subgroup".data s = true) : False := by
  match s with
  | [] => simp [startsWithChars] at h1
  | [a] => simp [startsWithChars] at h1
  | [a, b] => simp [startsWithChars] at h1
  | a :: b :: c :: s2 =>
    have e1 : ("# group".data) = '#' :: ' ' :: 'g' :: "roup".data := rfl
    have e2 : ("# subgroup".data) = '#' :: ' ' :: 's' :: "ubgroup".data := rfl
    rw [e1] at h1
    rw [e2] at h2
    simp only [startsWithChars, Bool.and_eq_true, beq_iff_eq] at h1 h2
    exact absurd (h1.2.2.1.trans h2.2.2.1.symm) (by decide)

theorem processDataLine_keeps (st : EmojiState) (line : List Char) :
    (processDataLine st line).group = st.group
    ∧ (processDataLine st line).subgroup = st.subgroup
    ∧ (invGroup st → invGroup (processDataLine st line)) := by
  cases hsp : splitOnce '#' line with
  | none =>
    have h : processDataLine st line = st := by simp only [processDataLine, hsp]
    rw [h]
    exact ⟨rfl, rfl, id⟩
  | some pr =>
    obtain ⟨lRaw, rRaw⟩ := pr
    by_cases hlen : (splitOnChar ';' (stripChars lRaw)).length < 2
    · have h : processDataLine st line = st := by
        simp only [processDataLine, hsp, if_pos hlen]
      rw [h]
      exact ⟨rfl, rfl, id⟩
    · rcases processDataLine_wf st line lRaw rRaw hsp hlen with
        ⟨hca, g, sg, subs, lst, hg, hsg, hf1, hf2, heq⟩ | ⟨hca, heq⟩
      · rw [heq]
        refine ⟨rfl, rfl, fun hinv g2 hg2 => ?_⟩
        have hg2s : st.group = some g2 := hg2
        rw [hg] at hg2s
        have hge : g2 = g := (Option.some.inj hg2s).symm
        have hdb : ({ st with
            db := dictSet g (dictSet sg (lst ++ [dataEntry lRaw rRaw]) subs) st.db
          } : EmojiState).db
            = dictSet g (dictSet sg (lst ++ [dataEntry lRaw rRaw]) subs) st.db := rfl
        rw [hdb, hge, dictFind_dictSet_self]
        rfl
      · rw [heq]
        exact ⟨rfl, rfl, id⟩

/-- The per-line precondition under which `parse_emoji_test` cannot raise:
every group header contains a colon, and every subgroup header contains a
colon and is preceded by a group header (`seen` tracks whether one was). -/
def linesOk : Bool → List String → Bool
  | _, [] => true
  | seen, l :: ls =>
    if startsWithChars "# group".data (stripChars l.data) then
      (splitOnce ':' (stripChars l.data)).isSome && linesOk true ls
    else if startsWithChars "# subgroup".data (stripChars l.data) then
      (splitOnce ':' (stripChars l.data)).isSome && seen && linesOk seen ls
    else linesOk seen ls

theorem processEmojiLine_ok (st : EmojiState) (l : String) (hinv : invGroup st)
    (hg : startsWithChars "# group".data (stripChars l.data) = true →
          (splitOnce ':' (stripChars l.data)).isSome = true)
    (hs : startsWithChars "# subgroup".data (stripChars l.data) = true →
          (splitOnce ':' (stripChars l.data)).isSome = true ∧ st.group.isSome = true) :
    ∃ st2, processEmojiLine st l = .ok st2 ∧ invGroup st2
      ∧ st2.group.isSome
          = (st.group.isSome || startsWithChars "# group".data (stripChars l.data)) := by
  cases hempB : (stripChars l.data).isEmpty with
  | true =>
    have hnil : stripChars l.data = [] := by
      cases hx : stripChars l.data with
      | nil => rfl
      | cons a as => rw [hx] at hempB; cases hempB
    refine ⟨st, ?_, hinv, ?_⟩
    · simp only [processEmojiLine, hempB, if_true]
    · rw [hnil]
      simp [startsWithChars]
  | false =>
    cases hgrB : startsWithChars "# group".data (stripChars l.data) with
    | true =>
      have hhash : startsWithChars "#".data (stripChars l.data) = true :=
        startsWith_first hgrB
      obtain ⟨⟨bef, aft⟩, hpr⟩ := Option.isSome_iff_exists.mp (hg hgrB)
      cases hv : (dictFind (⟨stripChars aft⟩ : String) st.db).isSome with
      | true =>
        refine ⟨⟨st.db, some ⟨stripChars aft⟩, st.subgroup⟩, ?_, ?_, by simp [hgrB]⟩
        · simp [processEmojiLine, hempB, hhash, hgrB, hpr, hv]
        · intro g2 hg2
          have h2 : g2 = ⟨stripChars aft⟩ := (Option.some.inj hg2).symm
          subst h2
          exact hv
      | false =>
        refine ⟨⟨dictSet ⟨stripChars aft⟩ [] st.db, some ⟨stripChars aft⟩,
          st.subgroup⟩, ?_, ?_, by simp [hgrB]⟩
        · simp [processEmojiLine, hempB, hhash, hgrB, hpr, hv]
        · intro g2 hg2
          have h2 : g2 = ⟨stripChars aft⟩ := (Option.some.inj hg2).symm
          subst h2
          have h3 : dictFind (⟨stripChars aft⟩ : String)
              (dictSet (⟨stripChars aft⟩ : String) [] st.db) = some [] :=
            dictFind_dictSet_self _ _ _
          rw [show (⟨dictSet (⟨stripChars aft⟩ : String) [] st.db,
            some (⟨stripChars aft⟩ : String), st.subgroup⟩ : EmojiState).db
            = dictSet (⟨stripChars aft⟩ : String) [] st.db from rfl, h3]
          rfl
    | false =>
      cases hsubB : startsWithChars "# subgroup".data (stripChars l.data) with
      | true =>
        obtain ⟨hspS, hgs⟩ := hs hsubB
        have hhash : startsWithChars "#".data (stripChars l.data) = true :=
          startsWith_first hsubB
        obtain ⟨⟨bef, aft⟩, hpr⟩ := Option.isSome_iff_exists.mp hspS
        obtain ⟨g, hgeq⟩ := Option.isSome_iff_exists.mp hgs
        obtain ⟨subs, hsubs⟩ := Option.isSome_iff_exists.mp (hinv g hgeq)
        refine ⟨⟨dictSet g (dictSet ⟨stripChars aft⟩ [] subs) st.db, st.group,
          some ⟨stripChars aft⟩⟩, ?_, ?_, by simp [hgeq, hgrB]⟩
        · simp [processEmojiLine, hempB, hhash, hgrB, hsubB, hpr, hgeq, hsubs]
        · intro g2 hg2
          have hg2s : st.group = some g2 := hg2
          rw [hgeq] at hg2s
          have h2 : g2 = g := (Option.some.inj hg2s).symm
          subst h2
          rw [show (⟨dictSet g2 (dictSet (⟨stripChars aft⟩ : String) [] subs) st.db,
            st.group, some (⟨stripChars aft⟩ : String)⟩ : EmojiState).db
            = dictSet g2 (dictSet (⟨stripChars aft⟩ : String) [] subs) st.db from rfl,
            dictFind_dictSet_self]
          rfl
      | false =>
        cases hhashB : startsWithChars "#".data (stripChars l.data) with
        | true =>
          refine ⟨st, ?_, hinv, by simp [hgrB]⟩
          simp [processEmojiLine, hempB, hhashB, hgrB, hsubB]
        | false =>
          obtain ⟨hgr2, hsg2, hinv2⟩ := processDataLine_keeps st (stripChars l.data)
          refine ⟨processDataLine st (stripChars l.data),
            processEmojiLine_data st l hempB hhashB, hinv2 hinv, ?_⟩
          rw [hgr2]
          simp [hgrB]

theorem parseEmojiLines_ok : ∀ (ls : List String) (st : EmojiState), invGroup st →
    linesOk st.group.isSome ls = true → ∃ st2, parseEmojiLines st ls = .ok st2 := by
  intro ls
  induction ls with
  | nil => exact fun st _ _ => ⟨st, rfl⟩
  | cons l ls ih =>
    intro st hinv hok
    rw [show linesOk st.group.isSome (l :: ls)
        = if startsWithChars "# group".data (stripChars l.data) then
            (splitOnce ':' (stripChars l.data)).isSome && linesOk true ls
          else if startsWithChars "# subgroup".data (stripChars l.data) then
            (splitOnce ':' (stripChars l.data)).isSome && st.group.isSome
              && linesOk st.group.isSome ls
          else linesOk st.group.isSome ls from rfl] at hok
    cases hgrB : startsWithChars "# group".data (stripChars l.data) with
    | true =>
      rw [hgrB] at hok
      simp only [if_true] at hok
      obtain ⟨hspS, hrest⟩ : (splitOnce ':' (stripChars l.data)).isSome = true
          ∧ linesOk true ls = true := by simpa using hok
      obtain ⟨st2, hst2, hinv2, hiso⟩ := processEmojiLine_ok st l hinv (fun _ => hspS)
        (fun hsub => (group_subgroup_incompat hgrB hsub).elim)
      have hok2 : linesOk st2.group.isSome ls = true := by
        rw [hiso, hgrB]
        simpa using hrest
      obtain ⟨st3, hst3⟩ := ih st2 hinv2 hok2
      refine ⟨st3, ?_⟩
      simp only [parseEmojiLines, hst2]
      exact hst3
    | false =>
      rw [hgrB] at hok
      simp only [Bool.false_eq_true, if_false] at hok
      cases hsubB : startsWithChars "# subgroup".data (stripChars l.data) with
      | true =>
        rw [hsubB] at hok
        simp only [if_true] at hok
        obtain ⟨⟨hspS, hseen⟩, hrest⟩ : ((splitOnce ':' (stripChars l.data)).isSome = true
            ∧ st.group.isSome = true) ∧ linesOk st.group.isSome ls = true := by
          simpa using hok
        obtain ⟨st2, hst2, hinv2, hiso⟩ := processEmojiLine_ok st l hinv
          (fun hgr => (group_subgroup_incompat hgr hsubB).elim)
          (fun _ => ⟨hspS, hseen⟩)
        have hok2 : linesOk st2.group.isSome ls = true := by
          rw [hiso, hgrB]
          simpa using hrest
        obtain ⟨st3, hst3⟩ := ih st2 hinv2 hok2
        refine ⟨st3, ?_⟩
        simp only [parseEmojiLines, hst2]
        exact hst3
      | false =>
        rw [hsubB] at hok
        simp only [Bool.false_eq_true, if_false] at hok
        obtain ⟨st2, hst2, hinv2, hiso⟩ := processEmojiLine_ok st l hinv
          (fun hgr => absurd hgr (by rw [hgrB]; exact Bool.false_ne_true))
          (fun hsub => absurd hsub (by rw [hsubB]; exact Bool.false_ne_true))
        have hok2 : linesOk st2.group.isSome ls = true := by
          rw [hiso, hgrB]
          simpa using hok
        obtain ⟨st3, hst3⟩ := ih st2 hinv2 hok2
        refine ⟨st3, ?_⟩
        simp only [parseEmojiLines, hst2]
        exact hst3

/-- **C2** (amended): `parse_emoji_test` completes the full pass without
raising provided every group header line contains a colon and every subgroup
header line contains a colon and is preceded by some group header; data lines
never abort regardless of shape.  `parse_unicode_data` is total and silently
drops every line with fewer than 15 semicolon-delimited fields. -/
theorem c2_amended :
    (∀ ls, linesOk false ls = true → ∃ db, parse_emoji_test ls = Except.ok db)
    ∧ ∀ (db : UnicodeDb) (l : String),
        (splitOnChar ';' (stripChars l.data)).length < 15 → processUnicodeLine db l = db := by
  constructor
  · intro ls hok
    obtain ⟨st2, hst2⟩ := parseEmojiLines_ok ls initState (fun g hg => by cases hg) hok
    refine ⟨st2.db, ?_⟩
    simp only [parse_emoji_test, hst2]
    rfl
  · intro db l h
    have hlen : ((splitOnChar ';' (stripChars l.data)).map
        (fun t => (⟨t⟩ : String))).length < 15 := by
      simpa [List.length_map] using h
    simp only [processUnicodeLine, if_pos hlen]

/-- **C2** (as stated, refuted): `parse_emoji_test` *does* abort on some
single lines — a subgroup header before any group header raises `KeyError`
(`emoji_db[None]`), and a group header without a colon raises `IndexError` —
because header handling sits outside the per-line `try`. -/
theorem c2_counterexample :
    parse_emoji_test ["# subgroup: x"] = .error (.keyError none)
    ∧ parse_emoji_test ["# group"] = .error .indexError := ⟨rfl, rfl⟩

/-- Witness for C2 (amended): a well-formed header sequence with a malformed
data line parses to completion, and a 2-field UnicodeData line is dropped. -/
theorem c2_witness :
    (linesOk false ["# group: A", "# subgroup: s", "not a data line", "X ; Y # Z n"] = true
      ∧ (splitOnChar ';' (stripChars ("0041;NAME" : String).data)).length < 15)
    ∧ (∃ db, parse_emoji_test ["# group: A", "# subgroup: s", "not a data line",
        "X ; Y # Z n"] = Except.ok db)
    ∧ processUnicodeLine [] "0041;NAME" = [] :=
  ⟨⟨by decide, by decide⟩,
   c2_amended.1 _ (by decide), c2_amended.2 [] _ (by decide)⟩

/-- **C10** (as stated, refuted): after `# group: A`, `# subgroup: s`,
`# group: B`, both trackers are set (headers were seen earlier in the input),
yet the following data line produces *no* catalog entry — the append raises
`KeyError("s")` under group `B`, caught and skipped. -/
theorem c10_counterexample :
    parseEmojiLines initState ["# group: A", "# subgroup: s", "# group: B"]
      = .ok ⟨[("A", [("s", [])]), ("B", [])], some "B", some "s"⟩
    ∧ parse_emoji_test ["# group: A", "# subgroup: s", "# group: B",
        "1F600 ; fully-qualified # X grinning"]
      = .ok [("A", [("s", [])]), ("B", [])]
    ∧ totalEntries [("A", [("s", [])]), ("B", [])] = 0 := ⟨rfl, rfl, rfl⟩

/-- Witness for C10 (amended): a data line under a live (group, subgroup)
pair appends exactly one entry. -/
theorem c10_witness :
    ((stripChars ("1F601 ; fq # Y name" : String).data).isEmpty = false
     ∧ startsWithChars "#".data (stripChars ("1F601 ; fq # Y name" : String).data) = false
     ∧ splitOnce '#' (stripChars ("1F601 ; fq # Y name" : String).data)
        = some (("1F601 ; fq " : String).data, (" Y name" : String).data)
     ∧ ¬ (splitOnChar ';' (stripChars ("1F601 ; fq " : String).data)).length < 2)
    ∧ (∃ st', processEmojiLine ⟨[("G", [("s", [])])], some "G", some "s"⟩
          "1F601 ; fq # Y name" = .ok st'
        ∧ st'.group = (⟨[("G", [("s", [])])], some "G", some "s"⟩ : EmojiState).group
        ∧ st'.subgroup = (⟨[("G", [("s", [])])], some "G", some "s"⟩ : EmojiState).subgroup
        ∧ totalEntries st'.db
            = totalEntries (⟨[("G", [("s", [])])], some "G", some "s"⟩ : EmojiState).db
              + (if canAppend ⟨[("G", [("s", [])])], some "G", some "s"⟩ then 1 else 0)
        ∧ (canAppend ⟨[("G", [("s", [])])], some "G", some "s"⟩ = false →
            st' = ⟨[("G", [("s", [])])], some "G", some "s"⟩)) :=
  ⟨⟨by decide, by decide, by decide, by decide⟩,
   c10_amended ⟨[("G", [("s", [])])], some "G", some "s"⟩ "1F601 ; fq # Y name"
     ("1F601 ; fq " : String).data (" Y name" : String).data
     (by decide) (by decide) (by decide) (by decide)⟩

theorem execOps_noFail (fails : Nat → Bool) (hf : ∀ i, fails i = false) :
    ∀ (ops : List DbOp) (i : Nat) (s : DbState),
      execOps fails ops i s = (ops.foldl applyOp s, true) := by
  intro ops
  induction ops with
  | nil => intro i s; rfl
  | cons op ops ih =>
    intro i s
    simp only [execOps, hf i, Bool.false_eq_true, if_false, List.foldl_cons]
    exact ih (i + 1) (applyOp s op)

/-- **C5** (amended): the load is one batch in which, absent failures, every
insert is applied in program order and the connection is then closed; the
connection is closed exactly when the whole batch (through the commit)
succeeded — on a create/insert failure the function propagates the exception
and the connection is *not* closed (no `try`/`finally` in `setup_database`). -/
theorem c5_amended : ∀ (fails : Nat → Bool) (cat : EmojiDb) (reg : UnicodeDb) (s : DbState),
    ((setup_database fails cat reg s).closed = !(setup_database fails cat reg s).failed)
    ∧ ((∀ i, fails i = false) →
        setup_database fails cat reg s = ⟨(dbOps cat reg).foldl applyOp s, true, false⟩) := by
  intro fails cat reg s
  constructor
  · unfold setup_database
    rcases hx : execOps fails (dbOps cat reg) 0 s with ⟨s2, ok⟩
    cases ok <;> simp
  · intro hf
    unfold setup_database
    rw [execOps_noFail fails hf]

/-- **C5** (as stated, refuted): a failure at the first emoji insert is an
exit path on which the store connection is left open. -/
theorem c5_counterexample :
    (setup_database (fun i => decide (i = 2))
      [("G", [("s", [(⟨["1F600"], "fully-qualified", "X", "x"⟩ : EmojiEntry)])])] []
      ⟨[], []⟩).failed = true
    ∧ (setup_database (fun i => decide (i = 2))
      [("G", [("s", [(⟨["1F600"], "fully-qualified", "X", "x"⟩ : EmojiEntry)])])] []
      ⟨[], []⟩).closed = false := by decide

/-- Witness for C5 (amended): with no failing statement the batch applies
fully and the connection is closed. -/
theorem c5_witness :
    (∀ i, (fun (_ : Nat) => false) i = false)
    ∧ setup_database (fun _ => false)
        [("G", [("s", [(⟨["1F600"], "fully-qualified", "X", "x"⟩ : EmojiEntry)])])] []
        ⟨[], []⟩
      = ⟨(dbOps [("G", [("s", [(⟨["1F600"], "fully-qualified", "X", "x"⟩ : EmojiEntry)])])]
          []).foldl applyOp ⟨[], []⟩, true, false⟩ :=
  ⟨fun _ => rfl, (c5_amended (fun _ => false) _ _ _).2 (fun _ => rfl)⟩
def findRow (cp : String) : List UnicodeRow → Option UnicodeRow
  | [] => none
  | r :: rs => if r.code_point = cp then some r else findRow cp rs

def insertAllUnicode (rows : List UnicodeRow) (u : List UnicodeRow) : List UnicodeRow :=
  rows.foldl (fun acc r => upsertRow r acc) u

def lastWithKey (cp : String) : List UnicodeRow → Option UnicodeRow
  | [] => none
  | r :: rs =>
    match lastWithKey cp rs with
    | some x => some x
    | none => if r.code_point = cp then some r else none

theorem upsertRow_cons (r x : UnicodeRow) (xs : List UnicodeRow) :
    upsertRow r (x :: xs)
      = if x.code_point = r.code_point then r :: xs else x :: upsertRow r xs := rfl

theorem keys_upsertRow (cp : String) (r : UnicodeRow) (u : List UnicodeRow) :
    cp ∈ (upsertRow r u).map (·.code_point)
      ↔ cp = r.code_point ∨ cp ∈ u.map (·.code_point) := by
  induction u with
  | nil => simp [upsertRow]
  | cons x xs ih =>
    by_cases hx : x.code_point = r.code_point
    · rw [upsertRow_cons, if_pos hx]
      simp only [List.map_cons, List.mem_cons, hx]
      tauto
    · rw [upsertRow_cons, if_neg hx]
      simp only [List.map_cons, List.mem_cons, ih]
      tauto

theorem nodup_keys_upsertRow (r : UnicodeRow) (u : List UnicodeRow)
    (h : (u.map (·.code_point)).Nodup) :
    ((upsertRow r u).map (·.code_point)).Nodup := by
  induction u with
  | nil => simp [upsertRow]
  | cons x xs ih =>
    simp only [List.map_cons, List.nodup_cons] at h
    by_cases hx : x.code_point = r.code_point
    · rw [upsertRow_cons, if_pos hx]
      simp only [List.map_cons, List.nodup_cons]
      refine ⟨?_, h.2⟩
      rw [← hx]
      exact h.1
    · rw [upsertRow_cons, if_neg hx]
      simp only [List.map_cons, List.nodup_cons]
      refine ⟨?_, ih h.2⟩
      intro hmem
      rcases (keys_upsertRow _ _ _).mp hmem with h1 | h1
      · exact hx h1
      · exact h.1 h1

theorem findRow_upsertRow (cp : String) (r : UnicodeRow) (u : List UnicodeRow) :
    findRow cp (upsertRow r u)
      = if r.code_point = cp then some r else findRow cp u := by
  induction u with
  | nil => simp [upsertRow, findRow]
  | cons x xs ih =>
    by_cases hx : x.code_point = r.code_point
    · rw [upsertRow_cons, if_pos hx]
      by_cases hrc : r.code_point = cp
      · simp [findRow, hrc]
      · have hxc : ¬ x.code_point = cp := by rw [hx]; exact hrc
        simp [findRow, hrc, hxc]
    · rw [upsertRow_cons, if_neg hx]
      by_cases hxc : x.code_point = cp
      · have hrc : ¬ r.code_point = cp := fun h2 => hx (hxc.trans h2.symm)
        simp [findRow, hxc, hrc]
      · simp [findRow, hxc, ih]

theorem keys_insertAll (cp : String) (rows u : List UnicodeRow) :
    cp ∈ (insertAllUnicode rows u).map (·.code_point)
      ↔ cp ∈ rows.map (·.code_point) ∨ cp ∈ u.map (·.code_point) := by
  induction rows generalizing u with
  | nil => simp [insertAllUnicode]
  | cons r rows ih =>
    have hstep : insertAllUnicode (r :: rows) u = insertAllUnicode rows (upsertRow r u) := rfl
    rw [hstep, ih, keys_upsertRow]
    simp only [List.map_cons, List.mem_cons]
    tauto

theorem nodup_insertAll (rows u : List UnicodeRow)
    (h : (u.map (·.code_point)).Nodup) :
    ((insertAllUnicode rows u).map (·.code_point)).Nodup := by
  induction rows generalizing u with
  | nil => exact h
  | cons r rows ih => exact ih _ (nodup_keys_upsertRow r u h)

theorem findRow_insertAll (cp : String) (rows u : List UnicodeRow) :
    findRow cp (insertAllUnicode rows u)
      = match lastWithKey cp rows with
        | some x => some x
        | none => findRow cp u := by
  induction rows generalizing u with
  | nil => simp [insertAllUnicode, lastWithKey]
  | cons r rows ih =>
    have hstep : insertAllUnicode (r :: rows) u = insertAllUnicode rows (upsertRow r u) := rfl
    rw [hstep, ih (upsertRow r u), findRow_upsertRow]
    cases hl : lastWithKey cp rows with
    | some x => simp [lastWithKey, hl]
    | none =>
      by_cases hrc : r.code_point = cp <;> simp [lastWithKey, hl, hrc]

theorem foldl_insertEmoji (rows : List EmojiRow) (s : DbState) :
    (rows.map DbOp.insertEmoji).foldl applyOp s = ⟨s.emojis ++ rows, s.unicode_data⟩ := by
  induction rows generalizing s with
  | nil => simp
  | cons r rows ih =>
    simp only [List.map_cons, List.foldl_cons]
    rw [ih]
    simp [applyOp]

theorem foldl_insertUnicode (rows : List UnicodeRow) (s : DbState) :
    (rows.map DbOp.insertUnicode).foldl applyOp s
      = ⟨s.emojis, insertAllUnicode rows s.unicode_data⟩ := by
  induction rows generalizing s with
  | nil => simp [insertAllUnicode]
  | cons r rows ih =>
    simp only [List.map_cons, List.foldl_cons]
    rw [ih]
    rfl

theorem loadOnce_eq (cat : EmojiDb) (reg : UnicodeDb) (s : DbState) :
    loadOnce cat reg s = ⟨s.emojis ++ emojiRows cat,
      insertAllUnicode (unicodeRows reg) s.unicode_data⟩ := by
  unfold loadOnce setup_database
  rw [execOps_noFail _ (fun _ => rfl)]
  show (dbOps cat reg).foldl applyOp s = _
  simp only [dbOps, List.foldl_append, List.foldl_cons, List.foldl_nil]
  rw [show applyOp (applyOp s DbOp.createEmojis) DbOp.createUnicode = s from rfl]
  rw [foldl_insertEmoji, foldl_insertUnicode]
  rfl

/-- **C8**: loading the same catalog and registry twice into an initially
empty store leaves the `emojis` table with the insert sequence duplicated
(two rows per EmojiEntry — no primary key, no clearing step), while the
`unicode_data` table keeps exactly one row per registry code point: its keys
are duplicate-free, they are exactly the registry's keys, and the row found
for any code point after the second load equals the one after the first
(`INSERT OR REPLACE` keyed on `code_point`). -/
theorem c8_store : ∀ (cat : EmojiDb) (reg : UnicodeDb),
    (loadOnce cat reg (loadOnce cat reg ⟨[], []⟩)).emojis = emojiRows cat ++ emojiRows cat
    ∧ ((loadOnce cat reg (loadOnce cat reg ⟨[], []⟩)).unicode_data.map
        (·.code_point)).Nodup
    ∧ (∀ cp, cp ∈ (loadOnce cat reg (loadOnce cat reg ⟨[], []⟩)).unicode_data.map
        (·.code_point) ↔ cp ∈ reg.map Prod.fst)
    ∧ (∀ cp, findRow cp (loadOnce cat reg (loadOnce cat reg ⟨[], []⟩)).unicode_data
        = findRow cp (loadOnce cat reg ⟨[], []⟩).unicode_data) := by
  intro cat reg
  have hkeys : (unicodeRows reg).map (·.code_point) = reg.map Prod.fst := by
    simp only [unicodeRows, List.map_map]
    rfl
  rw [loadOnce_eq, loadOnce_eq]
  refine ⟨by simp, ?_, ?_, ?_⟩
  · exact nodup_insertAll _ _ (nodup_insertAll _ _ (by simp))
  · intro cp
    show cp ∈ (insertAllUnicode (unicodeRows reg)
        (insertAllUnicode (unicodeRows reg) ([] : List UnicodeRow))).map (·.code_point) ↔ _
    rw [keys_insertAll, keys_insertAll, hkeys]
    simp
  · intro cp
    show findRow cp (insertAllUnicode (unicodeRows reg)
        (insertAllUnicode (unicodeRows reg) ([] : List UnicodeRow)))
      = findRow cp (insertAllUnicode (unicodeRows reg) ([] : List UnicodeRow))
    rw [findRow_insertAll, findRow_insertAll]
    cases hl : lastWithKey cp (unicodeRows reg) with
    | some x => simp
    | none => simp

/-- `joinWith sep fs`: the line whose `sep`-separated fields are `fs`. -/
def joinWith (sep : Char) : List (List Char) → List Char
  | [] => []
  | [x] => x
  | x :: y :: ys => x ++ sep :: joinWith sep (y :: ys)

theorem splitOnChar_cons (sep c : Char) (cs : List Char) :
    splitOnChar sep (c :: cs)
      = match splitOnChar sep cs with
        | [] => [[]]
        | t :: ts => if c == sep then [] :: t :: ts else (c :: t) :: ts := rfl

theorem splitOnChar_ne_nil (sep : Char) (l : List Char) : splitOnChar sep l ≠ [] := by
  cases l with
  | nil => simp [splitOnChar]
  | cons c cs =>
    rw [splitOnChar_cons]
    cases splitOnChar sep cs with
    | nil => simp
    | cons t ts => by_cases hc : (c == sep) = true <;> simp [hc]

theorem splitOnChar_no_sep (sep : Char) (x : List Char) (h : sep ∉ x) :
    splitOnChar sep x = [x] := by
  induction x with
  | nil => rfl
  | cons c cs ih =>
    have hc : ¬ (c == sep) = true := by
      simp only [beq_iff_eq]
      intro he
      exact h (he ▸ List.mem_cons_self c cs)
    have h2 : sep ∉ cs := fun hm => h (List.mem_cons_of_mem c hm)
    rw [splitOnChar_cons, ih h2]
    simp [hc]

theorem splitOnChar_append (sep : Char) (x r : List Char) (h : sep ∉ x) :
    splitOnChar sep (x ++ sep :: r) = x :: splitOnChar sep r := by
  induction x with
  | nil =>
    show splitOnChar sep (sep :: r) = [] :: splitOnChar sep r
    rw [splitOnChar_cons]
    cases hs : splitOnChar sep r with
    | nil => exact absurd hs (splitOnChar_ne_nil sep r)
    | cons t ts => simp
  | cons c cs ih =>
    have h2 : sep ∉ cs := fun hm => h (List.mem_cons_of_mem c hm)
    have hc : ¬ (c == sep) = true := by
      simp only [beq_iff_eq]
      intro he
      exact h (he ▸ List.mem_cons_self c cs)
    show splitOnChar sep (c :: (cs ++ sep :: r)) = (c :: cs) :: splitOnChar sep r
    rw [splitOnChar_cons, ih h2]
    simp [hc]

theorem splitOnChar_joinWith (sep : Char) : ∀ (fs : List (List Char)), fs ≠ [] →
    (∀ f ∈ fs, sep ∉ f) → splitOnChar sep (joinWith sep fs) = fs := by
  intro fs
  induction fs with
  | nil => exact fun h => absurd rfl h
  | cons x ys ih =>
    intro _ hall
    cases ys with
    | nil => exact splitOnChar_no_sep sep x (hall x (by simp))
    | cons y ys2 =>
      show splitOnChar sep (x ++ sep :: joinWith sep (y :: ys2)) = x :: y :: ys2
      rw [splitOnChar_append sep x _ (hall x (by simp))]
      rw [ih (by simp) (fun f hf => hall f (List.mem_cons_of_mem x hf))]

theorem getD_map_mk (fs : List (List Char)) (i : Nat) :
    (fs.map (fun t => (⟨t⟩ : String))).getD i "" = ⟨fs.getD i []⟩ := by
  induction fs generalizing i with
  | nil => cases i <;> rfl
  | cons x xs ih =>
    cases i with
    | zero => rfl
    | succ n => exact ih n

/-- **C7** (amended): the fields stored for a well-formed UnicodeData line
are exactly the raw semicolon-separated substrings of the line after the
*whole line* is stripped of leading and trailing whitespace (which removes
the terminator); no interior field is trimmed.  Here the line is presented as
its 15 semicolon-free fields joined by `;`, with the strip hypothesis saying
the line carries no leading/trailing whitespace of its own. -/
theorem c7_amended : ∀ (db : UnicodeDb) (fs : List (List Char)),
    fs.length = 15 → (∀ f ∈ fs, ';' ∉ f) →
    stripChars (joinWith ';' fs) = joinWith ';' fs →
    processUnicodeLine db ⟨joinWith ';' fs⟩
      = dictSet (⟨fs.getD 0 []⟩ : String)
          (mkUnicodeEntry (fs.map (fun t => (⟨t⟩ : String)))) db := by
  intro db fs hlen hsep hstrip
  have hdata : (⟨joinWith ';' fs⟩ : String).data = joinWith ';' fs := rfl
  have hne : fs ≠ [] := by
    intro h
    rw [h] at hlen
    cases hlen
  have hsplit := splitOnChar_joinWith ';' fs hne hsep
  have h15 : ¬ (fs.map (fun t => (⟨t⟩ : String))).length < 15 := by
    simp [List.length_map, hlen]
  simp only [processUnicodeLine, hdata, hstrip, hsplit, if_neg h15]
  rw [getD_map_mk]
/-- **C7** (as stated, refuted): `line.strip()` removes more than the line
terminator — a line with a leading space is registered under the trimmed key
`"A"`, not under its raw first substring `" A"`. -/
theorem c7_counterexample :
    dictFind " A" (parse_unicode_data [" A;b;c;d;e;f;g;h;i;j;k;l;m;n;o"]) = none
    ∧ dictFind "A" (parse_unicode_data [" A;b;c;d;e;f;g;h;i;j;k;l;m;n;o"])
      = some (mkUnicodeEntry
          ["A", "b", "c", "d", "e", "f", "g", "h", "i", "j", "k", "l", "m", "n", "o"]) := by
  constructor
  · rfl
  · rfl

/-- A concrete UnicodeData line's fields; the second field keeps its interior
and surrounding spaces. -/
def fsW : List (List Char) :=
  [("0041" : String).data, (" LATIN CAPITAL LETTER A " : String).data,
   ("Lu" : String).data, ("0" : String).data, ("L" : String).data,
   ("" : String).data, ("" : String).data, ("" : String).data,
   ("" : String).data, ("N" : String).data, ("" : String).data,
   ("" : String).data, ("" : String).data, ("0061" : String).data,
   ("" : String).data]

/-- Witness for C7 (amended): the spacey interior field is stored verbatim. -/
theorem c7_witness :
    (fsW.length = 15 ∧ (∀ f ∈ fsW, ';' ∉ f)
      ∧ stripChars (joinWith ';' fsW) = joinWith ';' fsW)
    ∧ processUnicodeLine [] ⟨joinWith ';' fsW⟩
      = dictSet (⟨fsW.getD 0 []⟩ : String)
          (mkUnicodeEntry (fsW.map (fun t => (⟨t⟩ : String)))) [] :=
  ⟨⟨by decide, by decide, by decide⟩,
   c7_amended [] fsW (by decide) (by decide) (by decide)⟩

end ZEmoji
